import Mathlib

/-!
Verification of bench/MatrixBench.cpp.

A shallow embedding of the Skia micro-benchmark file `bench/MatrixBench.cpp`.

Modelling conventions:

* C++ `float` and `double` values are embedded as exact rationals (`ℚ`).
  Every arithmetic operation performed at C++ type `float` is modelled as the
  exact rational operation followed by an abstract rounding map `rf : ℚ → ℚ`;
  every operation performed at type `double` is followed by an abstract
  rounding map `rd : ℚ → ℚ`.  Instantiating `rf` and `rd` with `id` gives the
  exact (infinitely precise) interpretation of the arithmetic.  Widening a
  `float` to `double` is exact on real machines and is modelled as the
  identity; narrowing a `double` to `float` (`SkDoubleToFloat`) applies `rf`.
* The 9-element member arrays `mya`, `myb`, `myr` become functions
  `Fin 9 → ℚ`; an assignment `r[i] = v` becomes `Function.update r i v`.
* Each benchmark object's state is a structure holding exactly its fields
  (including the inherited `fName`); a `performTest` body becomes a function
  from the state to the state.
-/

/-- `enum { N = 100000 };` of class `MatrixBench`. -/
def MatrixBench.N : ℕ := 100000

/-- The loop body of `MatrixBench::onDraw`:
`for (int i = 0; i < N; i++) { this->performTest(); }`, translated with the
benchmark object's state `s : σ` passed explicitly and the virtual call
`this->performTest()` passed in as a state transformer. -/
def MatrixBench.drawLoop {σ : Type} (performTest : σ → σ) (i : ℕ) (s : σ) : σ :=
  if _h : i < MatrixBench.N then
    MatrixBench.drawLoop performTest (i + 1) (performTest s)
  else
    s
termination_by MatrixBench.N - i
decreasing_by omega

/-- `MatrixBench::onDraw`: run the loop from `i = 0`. -/
def MatrixBench.onDraw {σ : Type} (performTest : σ → σ) (s : σ) : σ :=
  MatrixBench.drawLoop performTest 0 s

/-- `MatrixBench::MatrixBench` does `fName.printf("matrix_%s", name)`. -/
def MatrixBench.mkFName (name : String) : String := "matrix_" ++ name

/-- `#define always_do(pred) do { if (pred) { ++gMatrixBench_NonStaticGlobal; } } while (0)`.
The non-static global counter `gMatrixBench_NonStaticGlobal : ℤ` is threaded
through explicitly as `g`. -/
def always_do (pred : Bool) (g : ℤ) : ℤ :=
  if pred then g + 1 else g

/-- Modelled from the spec: `SkMatrix.h` is not part of this repository
fragment (only this benchmark file is under `src/`).  The glossary describes
an affine transform matrix as "a 3x3 matrix representing 2D
scale/translate/rotate/perspective operations"; we model it as its nine
scalar entries in row-major order. -/
structure SkMatrix where
  vals : Fin 9 → ℚ
deriving DecidableEq

/-- Modelled from the spec: `SkMatrix::reset()` sets the matrix to the
identity transform (ones on the diagonal of the 3x3 matrix). -/
def SkMatrix.reset : SkMatrix :=
  ⟨fun i => if i = 0 ∨ i = 4 ∨ i = 8 then 1 else 0⟩

/-- Modelled from the spec: `SkMatrix::operator==` compares the two
matrices entrywise. -/
def SkMatrix.eqMatrix (m n : SkMatrix) : Bool :=
  decide (∀ i : Fin 9, m.vals i = n.vals i)

/-- Modelled from the spec: `SkMatrix::setScale(sx, sy)` makes the matrix a
pure 2D scale transform. -/
def SkMatrix.setScale (sx sy : ℚ) : SkMatrix :=
  ⟨fun i => if i = 0 then sx else if i = 4 then sy else if i = 8 then 1 else 0⟩

/-- Modelled from the spec: `SkMatrix::setTranslate(tx, ty)` makes the matrix
a pure 2D translation transform. -/
def SkMatrix.setTranslate (tx ty : ℚ) : SkMatrix :=
  ⟨fun i =>
    if i = 2 then tx else if i = 5 then ty
    else if i = 0 ∨ i = 4 ∨ i = 8 then 1 else 0⟩

namespace EqualsMatrixBench

/-- `EqualsMatrixBench::performTest`.  The three local matrices are reset to
the identity and six `always_do` expansions run in order, accumulating into
the global counter `g`.  `SkMatrix::getType()` lives outside this fragment,
so its integer result is abstracted as a function `getType` of the matrix;
`if (pred)` on an `int` tests it against zero. -/
def performTest (getType : SkMatrix → ℤ) (g : ℤ) : ℤ :=
  let m0 := SkMatrix.reset
  let m1 := SkMatrix.reset
  let m2 := SkMatrix.reset
  let g := always_do (SkMatrix.eqMatrix m0 m1) g
  let g := always_do (SkMatrix.eqMatrix m1 m2) g
  let g := always_do (SkMatrix.eqMatrix m2 m0) g
  let g := always_do (decide (getType m0 ≠ 0)) g
  let g := always_do (decide (getType m1 ≠ 0)) g
  let g := always_do (decide (getType m2 ≠ 0)) g
  g

end EqualsMatrixBench

/-- The fields of `ScaleMatrixBench`: `SkMatrix fM0, fM1, fM2; SkScalar fSX, fSY;`
plus the inherited `fName`. -/
structure ScaleMatrixBenchState where
  fName : String
  fM0 : SkMatrix
  fM1 : SkMatrix
  fM2 : SkMatrix
  fSX : ℚ
  fSY : ℚ

/-- The `ScaleMatrixBench` constructor body, statement by statement.  The
member scalars `fSX`, `fSY` are read by `setScale`/`setTranslate` before any
assignment to them, so their indeterminate initial contents are passed in as
`sx0`, `sy0`.  `SkFloatToScalar(1.5f)` is the scalar 1.5 (exactly
representable, so no rounding is involved). -/
def ScaleMatrixBench.construct (sx0 sy0 : ℚ) : ScaleMatrixBenchState :=
  let fM0 := SkMatrix.reset
  let fM1 := SkMatrix.setScale sx0 sy0
  let fM2 := SkMatrix.setTranslate sx0 sy0
  let fSX : ℚ := 3 / 2
  let fSY : ℚ := 3 / 2
  { fName := MatrixBench.mkFName "scale"
    fM0 := fM0, fM1 := fM1, fM2 := fM2, fSX := fSX, fSY := fSY }

/-- The fields shared by the three concat benchmark classes:
`float mya[9]; float myb[9]; float myr[9];` (or `double` for
`DoubleConcatMatrixBench`) plus the inherited `fName`. -/
structure ConcatState where
  fName : String
  mya : Fin 9 → ℚ
  myb : Fin 9 → ℚ
  myr : Fin 9 → ℚ

/-- `static inline float SkDoubleToFloat(double x) { return static_cast<float>(x); }`:
narrowing a double to float applies the float rounding map `rf`. -/
def SkDoubleToFloat (rf : ℚ → ℚ) (x : ℚ) : ℚ := rf x

namespace FloatConcatMatrixBench

/-- `FloatConcatMatrixBench::muladdmul`: `*result = a * b + c * d;` with all
operations at type `float`, so every product and the sum round through `rf`. -/
def muladdmul (rf : ℚ → ℚ) (a b c d : ℚ) : ℚ :=
  rf (rf (a * b) + rf (c * d))

/-- `FloatConcatMatrixBench::performTest`, statement by statement. -/
def performTest (rf : ℚ → ℚ) (s : ConcatState) : ConcatState :=
  let a := s.mya
  let b := s.myb
  let r := s.myr
  let r := Function.update r 0 (muladdmul rf (a 0) (b 0) (a 1) (b 3))
  let r := Function.update r 1 (muladdmul rf (a 0) (b 1) (a 1) (b 4))
  let r := Function.update r 2 (muladdmul rf (a 0) (b 2) (a 1) (b 5))
  let r := Function.update r 2 (rf (r 2 + a 2))
  let r := Function.update r 3 (muladdmul rf (a 3) (b 0) (a 4) (b 3))
  let r := Function.update r 4 (muladdmul rf (a 3) (b 1) (a 4) (b 4))
  let r := Function.update r 5 (muladdmul rf (a 3) (b 2) (a 4) (b 5))
  let r := Function.update r 5 (rf (r 5 + a 5))
  let r := Function.update r 6 0
  let r := Function.update r 7 0
  let r := Function.update r 8 1
  { s with myr := r }

end FloatConcatMatrixBench

namespace FloatDoubleConcatMatrixBench

/-- `FloatDoubleConcatMatrixBench::muladdmul`:
`*result = SkDoubleToFloat((double)a * b + (double)c * d);`.  The casts widen
exactly; the two products and the sum are `double` operations (rounding map
`rd`); `SkDoubleToFloat` narrows the sum back through `rf`. -/
def muladdmul (rf rd : ℚ → ℚ) (a b c d : ℚ) : ℚ :=
  SkDoubleToFloat rf (rd (rd (a * b) + rd (c * d)))

/-- `FloatDoubleConcatMatrixBench::performTest`, statement by statement.
The two `+=` statements operate on `float` values, hence round through `rf`. -/
def performTest (rf rd : ℚ → ℚ) (s : ConcatState) : ConcatState :=
  let a := s.mya
  let b := s.myb
  let r := s.myr
  let r := Function.update r 0 (muladdmul rf rd (a 0) (b 0) (a 1) (b 3))
  let r := Function.update r 1 (muladdmul rf rd (a 0) (b 1) (a 1) (b 4))
  let r := Function.update r 2 (muladdmul rf rd (a 0) (b 2) (a 1) (b 5))
  let r := Function.update r 2 (rf (r 2 + a 2))
  let r := Function.update r 3 (muladdmul rf rd (a 3) (b 0) (a 4) (b 3))
  let r := Function.update r 4 (muladdmul rf rd (a 3) (b 1) (a 4) (b 4))
  let r := Function.update r 5 (muladdmul rf rd (a 3) (b 2) (a 4) (b 5))
  let r := Function.update r 5 (rf (r 5 + a 5))
  let r := Function.update r 6 0
  let r := Function.update r 7 0
  let r := Function.update r 8 1
  { s with myr := r }

end FloatDoubleConcatMatrixBench

namespace DoubleConcatMatrixBench

/-- `DoubleConcatMatrixBench::muladdmul`: `*result = a * b + c * d;` with all
operations at type `double`, so every product and the sum round through `rd`. -/
def muladdmul (rd : ℚ → ℚ) (a b c d : ℚ) : ℚ :=
  rd (rd (a * b) + rd (c * d))

/-- `DoubleConcatMatrixBench::performTest`, statement by statement.  All
arrays and arithmetic are `double` here, so the `+=` statements round
through `rd`. -/
def performTest (rd : ℚ → ℚ) (s : ConcatState) : ConcatState :=
  let a := s.mya
  let b := s.myb
  let r := s.myr
  let r := Function.update r 0 (muladdmul rd (a 0) (b 0) (a 1) (b 3))
  let r := Function.update r 1 (muladdmul rd (a 0) (b 1) (a 1) (b 4))
  let r := Function.update r 2 (muladdmul rd (a 0) (b 2) (a 1) (b 5))
  let r := Function.update r 2 (rd (r 2 + a 2))
  let r := Function.update r 3 (muladdmul rd (a 3) (b 0) (a 4) (b 3))
  let r := Function.update r 4 (muladdmul rd (a 3) (b 1) (a 4) (b 4))
  let r := Function.update r 5 (muladdmul rd (a 3) (b 2) (a 4) (b 5))
  let r := Function.update r 5 (rd (r 5 + a 5))
  let r := Function.update r 6 0
  let r := Function.update r 7 0
  let r := Function.update r 8 1
  { s with myr := r }

end DoubleConcatMatrixBench

/-- The five registered benchmark factories `M0 .. M4`
(`static BenchRegistry gReg0(M0); ... static BenchRegistry gReg4(M4);`). -/
inductive RegisteredBench
  | equalsBench
  | scaleBench
  | floatConcatBench
  | floatDoubleConcatBench
  | doubleConcatBench
deriving DecidableEq

/-- The `name` argument each class passes to the `MatrixBench` constructor. -/
def RegisteredBench.ctorName : RegisteredBench → String
  | .equalsBench => "equals"
  | .scaleBench => "scale"
  | .floatConcatBench => "concat_floatfloat"
  | .floatDoubleConcatBench => "concat_floatdouble"
  | .doubleConcatBench => "concat_double"

/-- The registration list: `gReg0(M0)` through `gReg4(M4)`, in file order. -/
def benchRegistry : List RegisteredBench :=
  [.equalsBench, .scaleBench, .floatConcatBench,
   .floatDoubleConcatBench, .doubleConcatBench]

/-- The row-major 3x3 matrix product named by the spec ("Concatenation:
matrix multiplication combining two transforms into one") and by claim C1.
Entry `(i, j)` of the product (stored at index `3 * i + j`) is the dot
product of row `i` of `a` with column `j` of `b`.  This definition is
written from the spec's words, for comparison against what the code
computes. -/
def rowMajorProduct (a b : Fin 9 → ℚ) : Fin 9 → ℚ := fun i =>
  if i = 0 then a 0 * b 0 + a 1 * b 3 + a 2 * b 6
  else if i = 1 then a 0 * b 1 + a 1 * b 4 + a 2 * b 7
  else if i = 2 then a 0 * b 2 + a 1 * b 5 + a 2 * b 8
  else if i = 3 then a 3 * b 0 + a 4 * b 3 + a 5 * b 6
  else if i = 4 then a 3 * b 1 + a 4 * b 4 + a 5 * b 7
  else if i = 5 then a 3 * b 2 + a 4 * b 5 + a 5 * b 8
  else if i = 6 then a 6 * b 0 + a 7 * b 3 + a 8 * b 6
  else if i = 7 then a 6 * b 1 + a 7 * b 4 + a 8 * b 7
  else a 6 * b 2 + a 7 * b 5 + a 8 * b 8

/-- The output property claim C1 asserts of a result array `r`: it is the
row-major matrix product of `a` and `b`, and its entries are given by the
nine listed formulas. -/
def concatClaimOutput (a b r : Fin 9 → ℚ) : Prop :=
  r = rowMajorProduct a b ∧
  r 0 = a 0 * b 0 + a 1 * b 3 ∧
  r 1 = a 0 * b 1 + a 1 * b 4 ∧
  r 2 = a 0 * b 2 + a 1 * b 5 + a 2 ∧
  r 3 = a 3 * b 0 + a 4 * b 3 ∧
  r 4 = a 3 * b 1 + a 4 * b 4 ∧
  r 5 = a 3 * b 2 + a 4 * b 5 + a 5 ∧
  r 6 = 0 ∧ r 7 = 0 ∧ r 8 = 1

namespace FloatConcatMatrixBench

/-- The values `FloatConcatMatrixBench::performTest` leaves in `myr`,
written as a single function of the input arrays. -/
def resultArray (rf : ℚ → ℚ) (a b : Fin 9 → ℚ) : Fin 9 → ℚ := fun i =>
  if i = 0 then muladdmul rf (a 0) (b 0) (a 1) (b 3)
  else if i = 1 then muladdmul rf (a 0) (b 1) (a 1) (b 4)
  else if i = 2 then rf (muladdmul rf (a 0) (b 2) (a 1) (b 5) + a 2)
  else if i = 3 then muladdmul rf (a 3) (b 0) (a 4) (b 3)
  else if i = 4 then muladdmul rf (a 3) (b 1) (a 4) (b 4)
  else if i = 5 then rf (muladdmul rf (a 3) (b 2) (a 4) (b 5) + a 5)
  else if i = 6 then 0
  else if i = 7 then 0
  else 1

lemma floatConcat_performTest_eq (rf : ℚ → ℚ) (s : ConcatState) :
    performTest rf s = { s with myr := resultArray rf s.mya s.myb } := by
  have h : (performTest rf s).myr = resultArray rf s.mya s.myb := by
    funext i
    fin_cases i <;> simp [performTest, resultArray, Function.update_apply]
  cases s with
  | mk fName mya myb myr => exact congrArg (ConcatState.mk fName mya myb) h

end FloatConcatMatrixBench

namespace FloatDoubleConcatMatrixBench

/-- The values `FloatDoubleConcatMatrixBench::performTest` leaves in `myr`,
written as a single function of the input arrays. -/
def resultArray (rf rd : ℚ → ℚ) (a b : Fin 9 → ℚ) : Fin 9 → ℚ := fun i =>
  if i = 0 then muladdmul rf rd (a 0) (b 0) (a 1) (b 3)
  else if i = 1 then muladdmul rf rd (a 0) (b 1) (a 1) (b 4)
  else if i = 2 then rf (muladdmul rf rd (a 0) (b 2) (a 1) (b 5) + a 2)
  else if i = 3 then muladdmul rf rd (a 3) (b 0) (a 4) (b 3)
  else if i = 4 then muladdmul rf rd (a 3) (b 1) (a 4) (b 4)
  else if i = 5 then rf (muladdmul rf rd (a 3) (b 2) (a 4) (b 5) + a 5)
  else if i = 6 then 0
  else if i = 7 then 0
  else 1

lemma floatDoubleConcat_performTest_eq (rf rd : ℚ → ℚ) (s : ConcatState) :
    performTest rf rd s = { s with myr := resultArray rf rd s.mya s.myb } := by
  have h : (performTest rf rd s).myr = resultArray rf rd s.mya s.myb := by
    funext i
    fin_cases i <;> simp [performTest, resultArray, Function.update_apply]
  cases s with
  | mk fName mya myb myr => exact congrArg (ConcatState.mk fName mya myb) h

end FloatDoubleConcatMatrixBench

namespace DoubleConcatMatrixBench

/-- The values `DoubleConcatMatrixBench::performTest` leaves in `myr`,
written as a single function of the input arrays. -/
def resultArray (rd : ℚ → ℚ) (a b : Fin 9 → ℚ) : Fin 9 → ℚ := fun i =>
  if i = 0 then muladdmul rd (a 0) (b 0) (a 1) (b 3)
  else if i = 1 then muladdmul rd (a 0) (b 1) (a 1) (b 4)
  else if i = 2 then rd (muladdmul rd (a 0) (b 2) (a 1) (b 5) + a 2)
  else if i = 3 then muladdmul rd (a 3) (b 0) (a 4) (b 3)
  else if i = 4 then muladdmul rd (a 3) (b 1) (a 4) (b 4)
  else if i = 5 then rd (muladdmul rd (a 3) (b 2) (a 4) (b 5) + a 5)
  else if i = 6 then 0
  else if i = 7 then 0
  else 1

lemma doubleConcat_performTest_eq (rd : ℚ → ℚ) (s : ConcatState) :
    performTest rd s = { s with myr := resultArray rd s.mya s.myb } := by
  have h : (performTest rd s).myr = resultArray rd s.mya s.myb := by
    funext i
    fin_cases i <;> simp [performTest, resultArray, Function.update_apply]
  cases s with
  | mk fName mya myb myr => exact congrArg (ConcatState.mk fName mya myb) h

end DoubleConcatMatrixBench

/-- A concrete input array with third row `(0, 0, 1)`, used to witness C1. -/
def sampleA : Fin 9 → ℚ := fun i =>
  if i = 0 then 2 else if i = 1 then 3 else if i = 2 then 5
  else if i = 3 then 7 else if i = 4 then 11 else if i = 5 then 13
  else if i = 6 then 0 else if i = 7 then 0 else 1

/-- A second concrete input array with third row `(0, 0, 1)`. -/
def sampleB : Fin 9 → ℚ := fun i =>
  if i = 0 then 17 else if i = 1 then 19 else if i = 2 then 23
  else if i = 3 then 29 else if i = 4 then 31 else if i = 5 then 37
  else if i = 6 then 0 else if i = 7 then 0 else 1

/-- A concrete benchmark state built from `sampleA` and `sampleB`, with the
result array initially zero. -/
def sampleState : ConcatState :=
  { fName := MatrixBench.mkFName "concat_floatfloat"
    mya := sampleA
    myb := sampleB
    myr := fun _ => 0 }

lemma drawLoop_eq_iterate {σ : Type} (f : σ → σ) :
    ∀ (k i : ℕ), MatrixBench.N - i = k → ∀ s : σ, MatrixBench.drawLoop f i s = f^[k] s := by
  intro k
  induction k with
  | zero =>
    intro i hi s
    rw [MatrixBench.drawLoop]
    rw [dif_neg (by omega)]
    rfl
  | succ k ih =>
    intro i hi s
    rw [MatrixBench.drawLoop, dif_pos (by omega)]
    rw [ih (i + 1) (by omega)]
    rw [Function.iterate_succ_apply]

lemma countingIterate {σ : Type} (f : σ → σ) :
    ∀ (k : ℕ) (s : σ) (c : ℕ),
      (fun p : σ × ℕ => (f p.1, p.2 + 1))^[k] (s, c) = (f^[k] s, c + k) := by
  intro k
  induction k with
  | zero => intro s c; rfl
  | succ k ih =>
    intro s c
    rw [Function.iterate_succ_apply, Function.iterate_succ_apply]
    rw [ih (f s) (c + 1)]
    refine Prod.ext rfl ?_
    simp
    omega

/-- C1: on any concat benchmark state whose two input arrays have third row
`(0, 0, 1)`, one call of `performTest` (for each of the three concat
benchmark classes, with the arithmetic interpreted exactly, i.e. both
rounding maps instantiated to the identity) stores in `myr` the row-major
matrix product of `mya` and `myb`, with entries given by the nine formulas
the claim lists. -/
theorem concat_performTest_computes_matrix_product (s : ConcatState)
    (ha6 : s.mya 6 = 0) (ha7 : s.mya 7 = 0) (ha8 : s.mya 8 = 1)
    (hb6 : s.myb 6 = 0) (hb7 : s.myb 7 = 0) (hb8 : s.myb 8 = 1) :
    concatClaimOutput s.mya s.myb (FloatConcatMatrixBench.performTest id s).myr ∧
    concatClaimOutput s.mya s.myb (FloatDoubleConcatMatrixBench.performTest id id s).myr ∧
    concatClaimOutput s.mya s.myb (DoubleConcatMatrixBench.performTest id s).myr := by
  have key : concatClaimOutput s.mya s.myb (FloatConcatMatrixBench.performTest id s).myr := by
    rw [FloatConcatMatrixBench.floatConcat_performTest_eq]
    refine ⟨?_, ?_, ?_, ?_, ?_, ?_, ?_, ?_, ?_, ?_⟩
    · funext i
      fin_cases i <;>
        simp [FloatConcatMatrixBench.resultArray, FloatConcatMatrixBench.muladdmul,
          rowMajorProduct, ha6, ha7, ha8, hb6, hb7, hb8]
    all_goals
      simp [FloatConcatMatrixBench.resultArray, FloatConcatMatrixBench.muladdmul]
  exact ⟨key, key, key⟩

/-- Witness for C1: the hypotheses and the conclusion hold at the concrete
state `sampleState`. -/
theorem concat_performTest_computes_matrix_product_witness :
    (sampleState.mya 6 = 0 ∧ sampleState.mya 7 = 0 ∧ sampleState.mya 8 = 1 ∧
      sampleState.myb 6 = 0 ∧ sampleState.myb 7 = 0 ∧ sampleState.myb 8 = 1) ∧
    concatClaimOutput sampleState.mya sampleState.myb
      (FloatConcatMatrixBench.performTest id sampleState).myr :=
  ⟨⟨by decide, by decide, by decide, by decide, by decide, by decide⟩,
    (concat_performTest_computes_matrix_product sampleState
      (by decide) (by decide) (by decide) (by decide) (by decide) (by decide)).1⟩

/-- C2: the three `muladdmul` implementations realize the three precision
strategies.  With exact arithmetic (identity rounding) the float-only and
double-only versions compute `a * b + c * d`; and for every pair of rounding
maps, the float-double version is exactly the double-precision computation
narrowed once to float by `SkDoubleToFloat`.  (In the embedding, which
rounding maps a definition applies records which C++ type its operations are
performed at: `FloatConcatMatrixBench.muladdmul` takes only the float
rounding map, `DoubleConcatMatrixBench.muladdmul` only the double one.) -/
theorem muladdmul_three_precision_strategies (rf rd : ℚ → ℚ) (a b c d : ℚ) :
    FloatConcatMatrixBench.muladdmul id a b c d = a * b + c * d ∧
    DoubleConcatMatrixBench.muladdmul id a b c d = a * b + c * d ∧
    FloatDoubleConcatMatrixBench.muladdmul rf rd a b c d =
      SkDoubleToFloat rf (DoubleConcatMatrixBench.muladdmul rd a b c d) :=
  ⟨rfl, rfl, rfl⟩

/-- C3: with the arithmetic interpreted exactly (all rounding maps the
identity), the three `performTest` bodies compute the same function of the
benchmark state: same inputs, identical 9-element result array (indeed
identical whole state). -/
theorem concat_performTest_variants_agree_exactly (s : ConcatState) :
    FloatConcatMatrixBench.performTest id s = FloatDoubleConcatMatrixBench.performTest id id s ∧
    FloatConcatMatrixBench.performTest id s = DoubleConcatMatrixBench.performTest id s :=
  ⟨rfl, rfl⟩

/-- C4: `MatrixBench::onDraw` executes its loop to completion (the loop
function is total) and invokes the instance's `performTest` exactly
`N = 100000` times: iterating any state transformer `f`, `onDraw` computes
`f^[100000]`, and instrumenting `performTest` with a call counter shows the
counter ends at exactly 100000. -/
theorem onDraw_invokes_performTest_exactly_N_times :
    MatrixBench.N = 100000 ∧
    (∀ (σ : Type) (f : σ → σ) (s : σ), MatrixBench.onDraw f s = f^[100000] s) ∧
    (∀ (σ : Type) (f : σ → σ) (s : σ),
      MatrixBench.onDraw (fun p : σ × ℕ => (f p.1, p.2 + 1)) (s, 0) =
        (f^[100000] s, 100000)) := by
  refine ⟨rfl, ?_, ?_⟩
  · intro σ f s
    exact drawLoop_eq_iterate f 100000 0 rfl s
  · intro σ f s
    rw [MatrixBench.onDraw, drawLoop_eq_iterate _ 100000 0 rfl, countingIterate]

/-- C5: each `always_do(pred)` expansion adds exactly 1 to the global counter
when `pred` holds and leaves it unchanged otherwise; the three matrices reset
by `EqualsMatrixBench::performTest` are pairwise equal, so one call increases
the counter by at least 3 (whatever `getType` returns). -/
theorem equals_performTest_increments_counter (getType : SkMatrix → ℤ) (g : ℤ) :
    (∀ g0 : ℤ, always_do true g0 = g0 + 1 ∧ always_do false g0 = g0) ∧
    SkMatrix.eqMatrix SkMatrix.reset SkMatrix.reset = true ∧
    g + 3 ≤ EqualsMatrixBench.performTest getType g := by
  refine ⟨fun g0 => ⟨rfl, rfl⟩, by decide, ?_⟩
  have h : SkMatrix.eqMatrix SkMatrix.reset SkMatrix.reset = true := by decide
  simp [EqualsMatrixBench.performTest, always_do, h]
  split_ifs <;> omega

/-- Counterexample to C6 as stated: one call of
`EqualsMatrixBench::performTest` (with `getType` returning 0) moves the
non-static global counter from 0 to 3, state that is not provided by the
host benchmarking framework, survives the call, and is read (through `++`)
by later calls; and one call of `DoubleConcatMatrixBench::performTest` on
`sampleState` changes the member array `myr` (entry 8 goes from 0 to 1),
state that also survives the call. -/
theorem equals_performTest_leaves_persistent_counter :
    (EqualsMatrixBench.performTest (fun _ => 0) 0 = 3 ∧ (3 : ℤ) ≠ 0) ∧
    ((DoubleConcatMatrixBench.performTest id sampleState).myr 8 = 1 ∧
      sampleState.myr 8 = 0) :=
  ⟨⟨by decide, by decide⟩, by decide, by decide⟩

/-- C6 (amended): the surviving modifications are limited to each concat
benchmark's own result array and the global dead-code counter, and no call's
behaviour depends on state left by an earlier call: every concat
`performTest` is idempotent on the benchmark state (under any rounding
maps), and the counter increment of `EqualsMatrixBench::performTest` is
independent of the counter's prior value. -/
theorem performTest_no_cross_call_dependence (rf rd : ℚ → ℚ)
    (getType : SkMatrix → ℤ) (g g2 : ℤ) (s : ConcatState) :
    FloatConcatMatrixBench.performTest rf (FloatConcatMatrixBench.performTest rf s) =
      FloatConcatMatrixBench.performTest rf s ∧
    FloatDoubleConcatMatrixBench.performTest rf rd
        (FloatDoubleConcatMatrixBench.performTest rf rd s) =
      FloatDoubleConcatMatrixBench.performTest rf rd s ∧
    DoubleConcatMatrixBench.performTest rd (DoubleConcatMatrixBench.performTest rd s) =
      DoubleConcatMatrixBench.performTest rd s ∧
    EqualsMatrixBench.performTest getType g - g =
      EqualsMatrixBench.performTest getType g2 - g2 := by
  refine ⟨?_, ?_, ?_, ?_⟩
  · simp [FloatConcatMatrixBench.floatConcat_performTest_eq]
  · simp [FloatDoubleConcatMatrixBench.floatDoubleConcat_performTest_eq]
  · simp [DoubleConcatMatrixBench.doubleConcat_performTest_eq]
  · simp [EqualsMatrixBench.performTest, always_do]
    split_ifs <;> omega

/-- C7: the file registers exactly five benchmarks, in file order, and their
names (built by the `MatrixBench` constructor from each class's `name`
argument) are pairwise distinct and cover the spec's operations: one
equality benchmark, one scale benchmark, and three concat benchmarks, one
per precision strategy. -/
theorem five_benchmarks_registered :
    benchRegistry.length = 5 ∧
    benchRegistry.Nodup ∧
    benchRegistry.map (fun k => MatrixBench.mkFName k.ctorName) =
      ["matrix_equals", "matrix_scale", "matrix_concat_floatfloat",
        "matrix_concat_floatdouble", "matrix_concat_double"] ∧
    (benchRegistry.filter fun k => k.ctorName.data.take 7 = "concat_".data).length = 3 :=
  ⟨rfl, by decide, rfl, by decide⟩

/-- C8: in the `ScaleMatrixBench` constructor, `setScale` and `setTranslate`
run before the assignment `fSX = fSY = 1.5f` and therefore read the
pre-initialization contents `sx0`, `sy0` of the member scalars; only after
those calls do `fSX` and `fSY` equal 1.5.  In particular the constructed
`fM1` is not the scale-by-1.5 matrix when the indeterminate values differ
from 1.5. -/
theorem scale_ctor_reads_scales_before_initialization (sx0 sy0 : ℚ) :
    (ScaleMatrixBench.construct sx0 sy0).fM1 = SkMatrix.setScale sx0 sy0 ∧
    (ScaleMatrixBench.construct sx0 sy0).fM2 = SkMatrix.setTranslate sx0 sy0 ∧
    (ScaleMatrixBench.construct sx0 sy0).fSX = 3 / 2 ∧
    (ScaleMatrixBench.construct sx0 sy0).fSY = 3 / 2 ∧
    (ScaleMatrixBench.construct 0 0).fM1 ≠ SkMatrix.setScale (3 / 2) (3 / 2) := by
  refine ⟨rfl, rfl, rfl, rfl, ?_⟩
  intro h
  have h0 := congrArg (fun m => m.vals 0) h
  simp [ScaleMatrixBench.construct, SkMatrix.setScale] at h0
  norm_num at h0

/-- C9: whatever the input arrays hold (no third-row hypothesis) and
whatever the rounding maps, every call of a concat `performTest` leaves the
result array with last row exactly `(0, 0, 1)`. -/
theorem concat_performTest_last_row_invariant (rf rd : ℚ → ℚ) (s : ConcatState) :
    ((FloatConcatMatrixBench.performTest rf s).myr 6 = 0 ∧
      (FloatConcatMatrixBench.performTest rf s).myr 7 = 0 ∧
      (FloatConcatMatrixBench.performTest rf s).myr 8 = 1) ∧
    ((FloatDoubleConcatMatrixBench.performTest rf rd s).myr 6 = 0 ∧
      (FloatDoubleConcatMatrixBench.performTest rf rd s).myr 7 = 0 ∧
      (FloatDoubleConcatMatrixBench.performTest rf rd s).myr 8 = 1) ∧
    ((DoubleConcatMatrixBench.performTest rd s).myr 6 = 0 ∧
      (DoubleConcatMatrixBench.performTest rd s).myr 7 = 0 ∧
      (DoubleConcatMatrixBench.performTest rd s).myr 8 = 1) := by
  refine ⟨⟨?_, ?_, ?_⟩, ⟨?_, ?_, ?_⟩, ⟨?_, ?_, ?_⟩⟩ <;>
    simp [FloatConcatMatrixBench.floatConcat_performTest_eq, FloatConcatMatrixBench.resultArray,
      FloatDoubleConcatMatrixBench.floatDoubleConcat_performTest_eq, FloatDoubleConcatMatrixBench.resultArray,
      DoubleConcatMatrixBench.doubleConcat_performTest_eq, DoubleConcatMatrixBench.resultArray]

/-- C10: every call of a concat `performTest` (under any rounding maps)
leaves the input arrays `mya` and `myb`, and the only other field `fName`,
unchanged: only `myr` is written. -/
theorem concat_performTest_preserves_inputs (rf rd : ℚ → ℚ) (s : ConcatState) :
    ((FloatConcatMatrixBench.performTest rf s).mya = s.mya ∧
      (FloatConcatMatrixBench.performTest rf s).myb = s.myb ∧
      (FloatConcatMatrixBench.performTest rf s).fName = s.fName) ∧
    ((FloatDoubleConcatMatrixBench.performTest rf rd s).mya = s.mya ∧
      (FloatDoubleConcatMatrixBench.performTest rf rd s).myb = s.myb ∧
      (FloatDoubleConcatMatrixBench.performTest rf rd s).fName = s.fName) ∧
    ((DoubleConcatMatrixBench.performTest rd s).mya = s.mya ∧
      (DoubleConcatMatrixBench.performTest rd s).myb = s.myb ∧
      (DoubleConcatMatrixBench.performTest rd s).fName = s.fName) :=
  ⟨⟨rfl, rfl, rfl⟩, ⟨rfl, rfl, rfl⟩, ⟨rfl, rfl, rfl⟩⟩
